import Mathlib

/-!
Verification of the SiteWorker repository (files `agent.py` and
`openai_module.py`).

Strings are modelled as `List Char` (one entry per Unicode code point, which
matches Python's `len` and indexing semantics).  The heuristic response
parsers of `openai_module.py`, the text extractor of `agent.py`, the
retry wrapper and the agent orchestration are embedded as executable
definitions, and the frozen claims about them are settled below.
-/

namespace SiteWorker

/-- Python `str.isspace`: ASCII whitespace, the C0 separators and the
Unicode space separators that Python treats as whitespace. -/
def isPySpace (c : Char) : Bool :=
  c.toNat = 0x20 || c.toNat = 0x09 || c.toNat = 0x0a || c.toNat = 0x0b ||
  c.toNat = 0x0c || c.toNat = 0x0d ||
  (0x1c ≤ c.toNat && c.toNat ≤ 0x1f) || c.toNat = 0x85 || c.toNat = 0xa0 ||
  c.toNat = 0x1680 || (0x2000 ≤ c.toNat && c.toNat ≤ 0x200a) ||
  c.toNat = 0x2028 || c.toNat = 0x2029 || c.toNat = 0x202f ||
  c.toNat = 0x205f || c.toNat = 0x3000

/-- The line boundaries of Python `str.splitlines` (besides `"\r\n"` which is
handled as a two-character boundary). -/
def isLineBreak (c : Char) : Bool :=
  c.toNat = 0x0a || c.toNat = 0x0d || c.toNat = 0x0b || c.toNat = 0x0c ||
  (0x1c ≤ c.toNat && c.toNat ≤ 0x1e) || c.toNat = 0x85 ||
  c.toNat = 0x2028 || c.toNat = 0x2029

/-- Python `str.lower`, modelled on the ASCII and Cyrillic ranges that the
parsers of `openai_module.py` compare against. -/
def pyLowerChar (c : Char) : Char :=
  if 'A' ≤ c && c ≤ 'Z' then Char.ofNat (c.toNat + 32)
  else if 'А' ≤ c && c ≤ 'Я' then Char.ofNat (c.toNat + 32)
  else if c = 'Ё' then 'ё'
  else c

def pyLower (l : List Char) : List Char := l.map pyLowerChar

/-- Python `str.strip()` (no argument): drop whitespace from both ends. -/
def pyStrip (l : List Char) : List Char :=
  ((l.dropWhile isPySpace).reverse.dropWhile isPySpace).reverse

/-- Prepend a character to the first part of a split result. -/
def consHead (c : Char) : List (List Char) → List (List Char)
  | [] => [[c]]
  | h :: t => (c :: h) :: t

/-- Python `str.split(sep)` for a one-character separator. -/
def splitOnChar (sep : Char) : List Char → List (List Char)
  | [] => [[]]
  | c :: rest =>
      if c = sep then [] :: splitOnChar sep rest
      else consHead c (splitOnChar sep rest)

/-- Python `str.split("  ")`: split on non-overlapping occurrences of two
consecutive spaces, scanning left to right. -/
def splitTwoSpaces : List Char → List (List Char)
  | [] => [[]]
  | [c] => [[c]]
  | c :: d :: rest =>
      if c = ' ' && d = ' ' then [] :: splitTwoSpaces rest
      else consHead c (splitTwoSpaces (d :: rest))

/-- Python `str.splitlines()`: split at line boundaries, treating `"\r\n"` as
a single boundary and producing no trailing empty line. -/
def pySplitlines : List Char → List (List Char)
  | [] => []
  | [c] => if isLineBreak c then [[]] else [[c]]
  | c :: d :: rest =>
      if c = '\r' && d = '\n' then [] :: pySplitlines rest
      else if isLineBreak c then [] :: pySplitlines (d :: rest)
      else consHead c (pySplitlines (d :: rest))

/-- Python `" ".join`. -/
def joinSp : List (List Char) → List Char
  | [] => []
  | [c] => c
  | c :: rest => c ++ ' ' :: joinSp rest

/-- Python `needle in hay` substring containment. -/
def pyContains (needle : List Char) : List Char → Bool
  | [] => needle.isEmpty
  | c :: t => needle.isPrefixOf (c :: t) || pyContains needle t

/-- Everything after the first occurrence of `sep`
(Python `s.split(sep, 1)[1]`, meaningful only when `sep` occurs). -/
def afterFirstChar (sep : Char) : List Char → List Char
  | [] => []
  | c :: t => if c = sep then t else afterFirstChar sep t

/-- A parsed HTML document node (the fragment of the BeautifulSoup document
model that `PageParser.extract_text` consumes): an element with a lowercase
tag name and children, or a text node. -/
inductive Node where
  | elem (tag : List Char) (children : List Node)
  | text (s : List Char)

/-- The tag names decomposed by `extract_text` before collecting text. -/
def removedTags : List (List Char) :=
  ["script".data, "style".data, "meta".data, "link".data]

mutual

/-- The stripped non-empty descendant strings of a node, with the decomposed
tags removed — `soup.get_text(separator=" ", strip=True)` joins these. -/
def strippedStrings : Node → List (List Char)
  | .text s => let s' := pyStrip s; if s' = [] then [] else [s']
  | .elem tag children =>
      if tag ∈ removedTags then [] else strippedStringsList children

def strippedStringsList : List Node → List (List Char)
  | [] => []
  | n :: ns => strippedStrings n ++ strippedStringsList ns

end

/-- `soup.get_text(separator=" ", strip=True)` after decomposing
script/style/meta/link nodes. -/
def getText (doc : List Node) : List Char := joinSp (strippedStringsList doc)

/-- The whitespace normalization of `PageParser.extract_text`: split into
lines, strip each, split each line on double spaces, strip each phrase, and
join the non-empty chunks with single spaces. -/
def postprocess (t : List Char) : List Char :=
  let lines := (pySplitlines t).map pyStrip
  let chunks := (lines.map (fun line => (splitTwoSpaces line).map pyStrip)).flatten
  joinSp (chunks.filter (fun c => c ≠ []))

namespace PageParser

/-- `PageParser.extract_text`: decompose script/style/meta/link, flatten the
remaining text with single-space separators, and normalize whitespace. -/
def extract_text (doc : List Node) : List Char := postprocess (getText doc)

end PageParser

/-- No two consecutive spaces occur (the absence of any `"  "` occurrence,
exactly what `splitTwoSpaces` detects). -/
def noTwoSpaces : List Char → Bool
  | [] => true
  | [_] => true
  | a :: b :: rest => !(a = ' ' && b = ' ') && noTwoSpaces (b :: rest)

/-- No character is a `splitlines` boundary. -/
def noBreakChar (l : List Char) : Prop := ∀ c ∈ l, isLineBreak c = false

/-- A text left fixed by the whitespace normalization of `extract_text`:
trimmed, with no line boundary and no double space. -/
def normalizedText (l : List Char) : Prop :=
  pyStrip l = l ∧ noBreakChar l ∧ noTwoSpaces l = true

/-- Fallback element returned by `generate_questions` when no line survives. -/
def questionPlaceholder : List Char := "Не удалось сгенерировать вопросы".data

/-- The character set of `q.lstrip("- *•1234567890. ")`. -/
def questionMarkerSet : List Char := "- *•1234567890. ".data

/-- The pre-filter of `generate_questions`: keep a stripped line when it is
non-empty and does not start with `"#"`, `"-"`, `"*"`, `"1."` or `"2."`. -/
def keepQuestionLine (q : List Char) : Bool :=
  !q.isEmpty &&
  !("#".data.isPrefixOf q || "-".data.isPrefixOf q || "*".data.isPrefixOf q ||
    "1.".data.isPrefixOf q || "2.".data.isPrefixOf q)

/-- The lines of the completion response that survive the pre-filter of
`generate_questions`, after the leading list-marker characters are stripped
(empty results dropped). -/
def cleanedQuestions (responseText : List Char) : List (List Char) :=
  let questions :=
    ((splitOnChar '\n' (pyStrip responseText)).map pyStrip).filter keepQuestionLine
  questions.filterMap (fun q =>
    if q.dropWhile (fun ch => ch ∈ questionMarkerSet) = [] then none
    else some (q.dropWhile (fun ch => ch ∈ questionMarkerSet)))

/-- The response-parsing part of `OpenAIClient.generate_questions`. -/
def generate_questions_parse (responseText : List Char) (num_questions : Nat) :
    List (List Char) :=
  if cleanedQuestions responseText = [] then [questionPlaceholder]
  else (cleanedQuestions responseText).take num_questions

/-- The record returned by `OpenAIClient.classify_content`. -/
structure Classification where
  type : List Char
  explanation : List Char
deriving DecidableEq, Repr

/-- A stripped line starting with `"Тип:"` or `"Тип :"`. -/
def isTypeLine (l : List Char) : Bool :=
  "Тип:".data.isPrefixOf (pyStrip l) || "Тип :".data.isPrefixOf (pyStrip l)

/-- A stripped line starting with `"Объяснение:"` or `"Объяснение :"`. -/
def isExplLine (l : List Char) : Bool :=
  "Объяснение:".data.isPrefixOf (pyStrip l) ||
  "Объяснение :".data.isPrefixOf (pyStrip l)

/-- `line.split(":", 1)[1].strip()` applied to the stripped line. -/
def labelValue (l : List Char) : List Char :=
  pyStrip (afterFirstChar ':' (pyStrip l))

/-- The labelled-line loop of `classify_content`: later matches overwrite
earlier ones. -/
def classifyScan : List (List Char) → List Char → List Char →
    List Char × List Char
  | [], t, e => (t, e)
  | l :: ls, t, e =>
      if isTypeLine l then classifyScan ls (labelValue l) e
      else if isExplLine l then classifyScan ls t (labelValue l)
      else classifyScan ls t e

/-- The response-parsing part of `OpenAIClient.classify_content`, including
its fallbacks. -/
def classify_content_parse (responseText : List Char) : Classification :=
  let result_text := pyStrip responseText
  let lines := splitOnChar '\n' result_text
  let p := classifyScan lines [] []
  let first_line := lines.headD []
  let t1 :=
    if p.1 = [] then
      if ':' ∈ first_line then pyStrip (afterFirstChar ':' first_line)
      else pyStrip first_line
    else p.1
  let e1 :=
    if p.2 = [] ∧ 1 < lines.length then pyStrip (joinSp lines.tail) else p.2
  let t2 :=
    if t1 = [] then
      if result_text = [] then "Неизвестный тип".data else result_text.take 100
    else t1
  let e2 := if e1 = [] then "Не удалось определить объяснение".data else e1
  ⟨t2, e2⟩

/-- The record returned by `OpenAIClient.generate_ux_report`. -/
structure UXReport where
  strengths : List (List Char)
  weaknesses : List (List Char)
  recommendations : List (List Char)
deriving DecidableEq, Repr

/-- The current section of the line scanner of `generate_ux_report`. -/
inductive UXSection where
  | nosec
  | strengths
  | weaknesses
  | recommendations
deriving DecidableEq, Repr

/-- The character set of `line.lstrip("- •*")`. -/
def bulletMarkerSet : List Char := "- •*".data

/-- `line.startswith("-") or line.startswith("•") or line.startswith("*")`. -/
def isBulleted (l : List Char) : Bool :=
  "-".data.isPrefixOf l || "•".data.isPrefixOf l || "*".data.isPrefixOf l

/-- `line.lstrip("- •*").strip()`. -/
def bulletItem (l : List Char) : List Char :=
  pyStrip (l.dropWhile (fun c => c ∈ bulletMarkerSet))

/-- `any(line.startswith(f"{i}.") for i in range(1, 10))`. -/
def startsDigitDot (l : List Char) : Bool :=
  match l with
  | c :: d :: _ => ('1' ≤ c && c ≤ '9') && d = '.'
  | _ => false

/-- `line.split(".", 1)[1].strip() if "." in line else line`. -/
def numberedItem (l : List Char) : List Char :=
  if '.' ∈ l then pyStrip (afterFirstChar '.' l) else l

/-- Case-insensitive section switch for the strengths section. -/
def strengthsKeyword (line : List Char) : Bool :=
  pyContains "достоинства".data (pyLower line) ||
  pyContains "достоинство".data (pyLower line)

/-- Case-insensitive section switch for the weaknesses section. -/
def weaknessesKeyword (line : List Char) : Bool :=
  pyContains "слабые места".data (pyLower line) ||
  pyContains "слабое место".data (pyLower line)

/-- Case-insensitive section switch for the recommendations section. -/
def recommendationsKeyword (line : List Char) : Bool :=
  pyContains "рекомендации".data (pyLower line) ||
  pyContains "рекомендация".data (pyLower line)

/-- One iteration of the line loop of `generate_ux_report`. -/
def uxStep (acc : UXReport × UXSection) (rawline : List Char) :
    UXReport × UXSection :=
  let line := pyStrip rawline
  if line = [] then acc
  else if strengthsKeyword line then (acc.1, UXSection.strengths)
  else if weaknessesKeyword line then (acc.1, UXSection.weaknesses)
  else if recommendationsKeyword line then (acc.1, UXSection.recommendations)
  else
    match acc.2 with
    | UXSection.nosec => acc
    | UXSection.strengths =>
        if isBulleted line then
          if bulletItem line = [] then acc
          else ({ acc.1 with strengths := acc.1.strengths ++ [bulletItem line] }, acc.2)
        else if "Достоинства".data.isPrefixOf line then acc
        else ({ acc.1 with strengths := acc.1.strengths ++ [line] }, acc.2)
    | UXSection.weaknesses =>
        if isBulleted line then
          if bulletItem line = [] then acc
          else ({ acc.1 with weaknesses := acc.1.weaknesses ++ [bulletItem line] }, acc.2)
        else if "Слабые".data.isPrefixOf line then acc
        else ({ acc.1 with weaknesses := acc.1.weaknesses ++ [line] }, acc.2)
    | UXSection.recommendations =>
        if startsDigitDot line then
          if numberedItem line = [] then acc
          else
            ({ acc.1 with recommendations := acc.1.recommendations ++ [numberedItem line] }, acc.2)
        else if isBulleted line then
          if bulletItem line = [] then acc
          else ({ acc.1 with recommendations := acc.1.recommendations ++ [bulletItem line] }, acc.2)
        else if "Рекомендации".data.isPrefixOf line then acc
        else ({ acc.1 with recommendations := acc.1.recommendations ++ [line] }, acc.2)

/-- The numbered-line fallback of `generate_ux_report`, used when the
structured scan captured nothing. -/
def uxFallbackRecs (lines : List (List Char)) : List (List Char) :=
  lines.filterMap (fun rawline =>
    let line := pyStrip rawline
    if startsDigitDot line then
      let item := numberedItem line
      if item ≠ [] ∧ 10 < item.length then some item else none
    else none)

/-- Placeholder substituted when no recommendation is captured. -/
def uxRecPlaceholder : List Char := "Не удалось сгенерировать рекомендации".data

/-- Placeholder substituted for an empty strengths/weaknesses list. -/
def uxNonePlaceholder : List Char := "Не указаны".data

/-- The line scan of `generate_ux_report` including its numbered fallback,
before truncation and placeholder substitution. -/
def uxScanResult (responseText : List Char) : UXReport :=
  let lines := splitOnChar '\n' (pyStrip responseText)
  let r := (lines.foldl uxStep (⟨[], [], []⟩, UXSection.nosec)).1
  if r.strengths = [] ∧ r.weaknesses = [] ∧ r.recommendations = [] then
    { r with recommendations := uxFallbackRecs lines }
  else r

/-- The response-parsing part of `OpenAIClient.generate_ux_report`. -/
def generate_ux_report_parse (responseText : List Char)
    (num_recommendations : Nat) : UXReport :=
  let r := uxScanResult responseText
  let recs := r.recommendations.take num_recommendations
  { strengths := if r.strengths = [] then [uxNonePlaceholder] else r.strengths.take 5
    weaknesses := if r.weaknesses = [] then [uxNonePlaceholder] else r.weaknesses.take 5
    recommendations := if recs = [] then [uxRecPlaceholder] else recs }

/-- Decimal rendering of a count, as Python string interpolation produces. -/
def natChars (n : Nat) : List Char := (Nat.repr n).data

/-- The user prompt built by `generate_questions`. -/
def questionsPrompt (text : List Char) (num_questions : Nat) : List Char :=
  "Ты пользователь. Какие вопросы у тебя возникли после прочтения следующего текста? Сформулируй ".data ++
  natChars num_questions ++
  " логичных вопросов, которые могли бы задать пользователи.\n\nТекст:\n".data ++
  text ++
  "\n\nВерни только список вопросов, каждый вопрос с новой строки, без нумерации и дополнительных пояснений.".data

/-- The user prompt built by `classify_content`. -/
def classifyPrompt (text : List Char) : List Char :=
  "Классифицируй сайт на основе следующего текста. Определи тип сайта (например: лендинг, блог, маркетплейс, корпоративный сайт, новостной портал, форум, социальная сеть и т.д.).\n\nТекст:\n".data ++
  text ++
  "\n\nВерни ответ в формате:\nТип: [тип сайта]\nОбъяснение: [краткое объяснение, почему именно этот тип]".data

/-- The user prompt built by `generate_ux_report`. -/
def uxPrompt (text : List Char) (num_recommendations : Nat) : List Char :=
  "Ты UX-эксперт. Проанализируй следующий текст сайта и создай UX-отчёт.\n\nТекст:\n".data ++
  text ++
  "\n\nВерни отчёт в следующем формате:\nДостоинства:\n- [достоинство 1]\n- [достоинство 2]\n- [достоинство 3]\n\nСлабые места:\n- [слабое место 1]\n- [слабое место 2]\n- [слабое место 3]\n\nРекомендации по улучшению UX:\n1. [рекомендация 1]\n2. [рекомендация 2]\n3. [рекомендация 3]\n4. [рекомендация 4]\n5. [рекомендация 5]\n\nСформулируй ".data ++
  natChars num_recommendations ++
  " конкретных и практичных рекомендаций.".data

/-- A completion endpoint, abstracted as a function from the user prompt to
the response text (`response.choices[0].message.content`). -/
def Completion : Type := List Char → List Char

namespace OpenAIClient

/-- `OpenAIClient.generate_questions`: build the prompt, call the completion
endpoint, parse the response. -/
def generate_questions (complete : Completion) (text : List Char)
    (num_questions : Nat := 5) : List (List Char) :=
  generate_questions_parse (complete (questionsPrompt text num_questions))
    num_questions

/-- `OpenAIClient.classify_content`: build the prompt, call the completion
endpoint, parse the response. -/
def classify_content (complete : Completion) (text : List Char) :
    Classification :=
  classify_content_parse (complete (classifyPrompt text))

/-- `OpenAIClient.generate_ux_report`: build the prompt, call the completion
endpoint, parse the response. -/
def generate_ux_report (complete : Completion) (text : List Char)
    (num_recommendations : Nat := 5) : UXReport :=
  generate_ux_report_parse (complete (uxPrompt text num_recommendations))
    num_recommendations

/-- The configuration held by a constructed `OpenAIClient`. -/
structure State where
  api_key : List Char
  model : List Char
deriving DecidableEq, Repr

/-- The configuration-error message of `OpenAIClient.__init__`. -/
def apiKeyErrorMsg : List Char :=
  "OPENAI_API_KEY не найден в переменных окружения. Создайте файл .env и добавьте OPENAI_API_KEY=your_key".data

/-- `self.model = model or os.getenv("OPENAI_MODEL", "gpt-4o")`: an explicit
non-empty argument wins, else the environment value, else the default. -/
def resolveModel (model envModel : Option (List Char)) : List Char :=
  match model with
  | some m => if m = [] then envModel.getD "gpt-4o".data else m
  | none => envModel.getD "gpt-4o".data

/-- `OpenAIClient.__init__`: purely reads configuration; raises the
configuration error when `OPENAI_API_KEY` is absent or empty, and performs
no network call (the constructed state only stores the key and model). -/
def init (envApiKey : Option (List Char)) (envModel : Option (List Char))
    (model : Option (List Char)) : Except (List Char) State :=
  match envApiKey with
  | none => Except.error apiKeyErrorMsg
  | some k =>
      if k = [] then Except.error apiKeyErrorMsg
      else Except.ok ⟨k, resolveModel model envModel⟩

end OpenAIClient

/-- The retry loop of `tenacity.retry(stop=stop_after_attempt(n))`: run
attempt `attempt`; on failure, retry while `fuel` further attempts remain,
else propagate the last error. -/
def retryAttempts (f : Nat → Except (List Char) (List Char)) :
    Nat → Nat → Except (List Char) (List Char)
  | attempt, 0 => f attempt
  | attempt, fuel + 1 =>
      match f attempt with
      | Except.ok a => Except.ok a
      | Except.error _ => retryAttempts f (attempt + 1) fuel

namespace PageParser

/-- `PageParser.fetch_html` under `stop_after_attempt(3)`: at most three
attempts in total.  The network is abstracted as a function from the attempt
number (starting at 1) to that attempt's outcome. -/
def fetch_html (attempts : Nat → Except (List Char) (List Char)) :
    Except (List Char) (List Char) :=
  retryAttempts attempts 1 2

end PageParser

/-- The validation-error message shared by all agent `run` methods. -/
def insufficientTextMsg : List Char :=
  "Не удалось извлечь достаточное количество текста со страницы".data

/-- The fetch → extract → length-validation prefix shared by every agent
`run` method: extraction must yield a text of at least 50 characters after
trimming, otherwise a validation error is raised before any LLM call. -/
def gateText (html : List Node) : Except (List Char) (List Char) :=
  let text := PageParser.extract_text html
  if text = [] ∨ (pyStrip text).length < 50 then Except.error insufficientTextMsg
  else Except.ok text

namespace QuestionGeneratorAgent

/-- `QuestionGeneratorAgent.run` (the fetched page is abstracted as the
already-downloaded document `html`). -/
def run (complete : Completion) (html : List Node) (num_questions : Nat := 5) :
    Except (List Char) (List (List Char)) :=
  (gateText html).map (fun text =>
    OpenAIClient.generate_questions complete text num_questions)

end QuestionGeneratorAgent

namespace ContentClassifierAgent

/-- `ContentClassifierAgent.run`. -/
def run (complete : Completion) (html : List Node) :
    Except (List Char) Classification :=
  (gateText html).map (fun text => OpenAIClient.classify_content complete text)

end ContentClassifierAgent

namespace UXReviewerAgent

/-- `UXReviewerAgent.run`. -/
def run (complete : Completion) (html : List Node)
    (num_recommendations : Nat := 5) : Except (List Char) UXReport :=
  (gateText html).map (fun text =>
    OpenAIClient.generate_ux_report complete text num_recommendations)

end UXReviewerAgent

/-- The combined record returned by `SiteAgent.run_all`. -/
structure RunAllResult where
  questions : List (List Char)
  content_type : Classification
  ux_report : UXReport
deriving DecidableEq, Repr

namespace SiteAgent

/-- `SiteAgent.run_all`: fetch and extract once, then run the three LLM
operations on the same text.  As in the source, `generate_ux_report` is
called without a recommendation count, so its default of 5 applies. -/
def run_all (complete : Completion) (html : List Node)
    (num_questions : Nat := 5) : Except (List Char) RunAllResult :=
  (gateText html).map (fun text =>
    { questions := OpenAIClient.generate_questions complete text num_questions
      content_type := OpenAIClient.classify_content complete text
      ux_report := OpenAIClient.generate_ux_report complete text })

end SiteAgent

/-- A fetched document whose extracted text is shorter than 50 characters. -/
def sampleShortDoc : List Node :=
  [Node.elem "script".data [Node.text "var x = 1;".data],
   Node.text " Краткий текст ".data]

/-- A fetched document whose extracted text is at least 50 characters long. -/
def sampleLongDoc : List Node :=
  [Node.text "The quick brown fox jumps over the lazy dog near the river bank every morning.".data]

/-- A completion endpoint returning the same response for every prompt. -/
def constantCompletion (responseText : List Char) : Completion :=
  fun _ => responseText

/-!
## Claim theorems

Each claim of the specification audit is settled below: helper lemmas first,
then one theorem per claim (with counterexamples and witnesses where needed).
-/

/-- A surviving, non-trivially-cleaned line contributes its cleaned form to
`cleanedQuestions`. -/
theorem mem_cleanedQuestions {resp line : List Char}
    (hmem : line ∈ splitOnChar '\n' (pyStrip resp))
    (hkeep : keepQuestionLine (pyStrip line) = true)
    (hclean : (pyStrip line).dropWhile (fun ch => ch ∈ questionMarkerSet) ≠ []) :
    (pyStrip line).dropWhile (fun ch => ch ∈ questionMarkerSet) ∈
      cleanedQuestions resp := by
  unfold cleanedQuestions
  refine List.mem_filterMap.mpr ⟨pyStrip line, ?_, ?_⟩
  · exact List.mem_filter.mpr ⟨List.mem_map_of_mem _ hmem, hkeep⟩
  · exact if_neg hclean

/-- C1: the claim as frozen is false: a response line starting with `"-"`
(likewise `"#"`, `"*"`, `"1."`, `"2."`) is discarded by the pre-filter of
`generate_questions` rather than cleaned, so its cleaned form never reaches
the result; here the whole result degenerates to the placeholder. -/
theorem generate_questions_discards_dash_line :
    generate_questions_parse "- What is the refund policy?".data 5 =
      [questionPlaceholder] ∧
    "What is the refund policy?".data ∉
      generate_questions_parse "- What is the refund policy?".data 5 := by
  decide

/-- C1 (amended): lines whose stripped form starts with `"#"`, `"-"`, `"*"`,
`"1."` or `"2."` are discarded by a pre-filter; every remaining line has its
leading `- * • `-space-digit-dot markers stripped and, when non-empty, appears
in the result (provided the requested count does not truncate it away); in
particular `"3. What is the refund policy?"` yields
`"What is the refund policy?"`. -/
theorem generate_questions_cleans_surviving_lines
    (resp line : List Char) (count : Nat)
    (hmem : line ∈ splitOnChar '\n' (pyStrip resp))
    (hkeep : keepQuestionLine (pyStrip line) = true)
    (hclean : (pyStrip line).dropWhile (fun ch => ch ∈ questionMarkerSet) ≠ [])
    (hcount : (cleanedQuestions resp).length ≤ count) :
    (pyStrip line).dropWhile (fun ch => ch ∈ questionMarkerSet) ∈
      generate_questions_parse resp count := by
  have hm := mem_cleanedQuestions hmem hkeep hclean
  unfold generate_questions_parse
  rw [if_neg (List.ne_nil_of_mem hm), List.take_of_length_le hcount]
  exact hm

/-- C1 (amended) witness: the claim's own example, evaluated concretely. -/
theorem generate_questions_cleans_surviving_lines_witness :
    "What is the refund policy?".data ∈
      generate_questions_parse "3. What is the refund policy?".data 5 := by
  have h := generate_questions_cleans_surviving_lines
    "3. What is the refund policy?".data "3. What is the refund policy?".data 5
    (by decide) (by decide) (by decide) (by decide)
  have e : (pyStrip "3. What is the refund policy?".data).dropWhile
      (fun ch => ch ∈ questionMarkerSet) = "What is the refund policy?".data := by
    decide
  rw [e] at h
  exact h

/-- C2: the claim as frozen is false: when fewer cleaned lines survive than
the requested count, the result is not padded — a single surviving line with
a requested count of 5 yields a one-element list. -/
theorem generate_questions_not_padded :
    (generate_questions_parse "What happens next?".data 5).length ≠ 5 := by
  decide

/-- C2 (amended): the result length is `min count survivors` when at least
one cleaned line survives (so it is truncated when more survive and shorter
than the count when fewer survive), and exactly 1 (the placeholder) when no
line survives. -/
theorem generate_questions_result_length (resp : List Char) (count : Nat) :
    (generate_questions_parse resp count).length =
      if cleanedQuestions resp = [] then 1
      else min count (cleanedQuestions resp).length := by
  unfold generate_questions_parse
  split
  · rfl
  · simp [List.length_take]

/-- C3: the claim as frozen is false: a response that contains the lines
`"Тип: Блог"` and `"Объяснение: Сайт содержит статьи"` but also a later
`"Тип:"` line is parsed with the later line overwriting the earlier one, so
the returned record is not `{type: Блог, explanation: Сайт содержит статьи}`. -/
theorem classify_content_later_line_overwrites :
    "Тип: Блог".data ∈
      splitOnChar '\n'
        (pyStrip "Тип: Блог\nОбъяснение: Сайт содержит статьи\nТип: Форум".data) ∧
    "Объяснение: Сайт содержит статьи".data ∈
      splitOnChar '\n'
        (pyStrip "Тип: Блог\nОбъяснение: Сайт содержит статьи\nТип: Форум".data) ∧
    classify_content_parse
        "Тип: Блог\nОбъяснение: Сайт содержит статьи\nТип: Форум".data ≠
      ⟨"Блог".data, "Сайт содержит статьи".data⟩ := by
  decide

/-- A list whose head is forced by a non-empty `isPrefixOf` hypothesis. -/
theorem head?_of_isPrefixOf {a : Char} {pre l : List Char}
    (h : (a :: pre).isPrefixOf l = true) : l.head? = some a := by
  rcases List.isPrefixOf_iff_prefix.mp h with ⟨t, ht⟩
  rw [← ht]
  rfl

/-- A `"Тип:"`-labelled line is never also `"Объяснение:"`-labelled. -/
theorem isExplLine_not_isTypeLine {l : List Char}
    (hE : isExplLine l = true) : isTypeLine l = false := by
  cases hT : isTypeLine l
  · rfl
  · exfalso
    have hThead : (pyStrip l).head? = some 'Т' := by
      simp only [isTypeLine, Bool.or_eq_true] at hT
      rcases hT with h | h
      · exact head?_of_isPrefixOf h
      · exact head?_of_isPrefixOf h
    have hEhead : (pyStrip l).head? = some 'О' := by
      simp only [isExplLine, Bool.or_eq_true] at hE
      rcases hE with h | h
      · exact head?_of_isPrefixOf h
      · exact head?_of_isPrefixOf h
    rw [hThead] at hEhead
    exact absurd hEhead (by decide)

/-- In the labelled-line loop of `classify_content`, the final `type` value
is `v` as soon as every `"Тип:"` line carries `v` and either the accumulator
already holds `v` or some `"Тип:"` line occurs. -/
theorem classifyScan_fst_const (ls : List (List Char)) (t e v : List Char)
    (ht : t = v ∨ ∃ l ∈ ls, isTypeLine l = true)
    (hall : ∀ l ∈ ls, isTypeLine l = true → labelValue l = v) :
    (classifyScan ls t e).1 = v := by
  induction ls generalizing t e with
  | nil =>
      rcases ht with rfl | ⟨l, hl, _⟩
      · rfl
      · exact absurd hl (List.not_mem_nil _)
  | cons l ls ih =>
      simp only [classifyScan]
      by_cases h1 : isTypeLine l = true
      · rw [if_pos h1]
        exact ih _ _ (Or.inl (hall l (List.mem_cons_self _ _) h1))
          (fun x hx hxt => hall x (List.mem_cons_of_mem _ hx) hxt)
      · rw [if_neg h1]
        have hrest : t = v ∨ ∃ x ∈ ls, isTypeLine x = true := by
          rcases ht with rfl | ⟨x, hx, hxt⟩
          · exact Or.inl rfl
          · rcases List.mem_cons.mp hx with rfl | hx'
            · exact absurd hxt h1
            · exact Or.inr ⟨x, hx', hxt⟩
        have hallrest := fun x hx hxt => hall x (List.mem_cons_of_mem _ hx) hxt
        by_cases h2 : isExplLine l = true
        · rw [if_pos h2]
          exact ih _ _ hrest hallrest
        · rw [if_neg h2]
          exact ih _ _ hrest hallrest

/-- In the labelled-line loop of `classify_content`, the final `explanation`
value is `v` as soon as every effective `"Объяснение:"` line carries `v` and
either the accumulator already holds `v` or some such line occurs. -/
theorem classifyScan_snd_const (ls : List (List Char)) (t e v : List Char)
    (he : e = v ∨ ∃ l ∈ ls, isTypeLine l = false ∧ isExplLine l = true)
    (hall : ∀ l ∈ ls, isTypeLine l = false → isExplLine l = true →
      labelValue l = v) :
    (classifyScan ls t e).2 = v := by
  induction ls generalizing t e with
  | nil =>
      rcases he with rfl | ⟨l, hl, _⟩
      · rfl
      · exact absurd hl (List.not_mem_nil _)
  | cons l ls ih =>
      simp only [classifyScan]
      have hallrest := fun x hx h1 h2 => hall x (List.mem_cons_of_mem _ hx) h1 h2
      by_cases h1 : isTypeLine l = true
      · rw [if_pos h1]
        refine ih _ _ ?_ hallrest
        rcases he with rfl | ⟨x, hx, hxf, hxe⟩
        · exact Or.inl rfl
        · rcases List.mem_cons.mp hx with rfl | hx'
          · rw [h1] at hxf
            exact absurd hxf (by decide)
          · exact Or.inr ⟨x, hx', hxf, hxe⟩
      · rw [if_neg h1]
        by_cases h2 : isExplLine l = true
        · rw [if_pos h2]
          exact ih _ _
            (Or.inl (hall l (List.mem_cons_self _ _) (Bool.eq_false_iff.mpr h1) h2))
            hallrest
        · rw [if_neg h2]
          refine ih _ _ ?_ hallrest
          rcases he with rfl | ⟨x, hx, hxf, hxe⟩
          · exact Or.inl rfl
          · rcases List.mem_cons.mp hx with rfl | hx'
            · exact absurd hxe h2
            · exact Or.inr ⟨x, hx', hxf, hxe⟩

/-- C3 (amended): when every `"Тип:"`-labelled line of the response carries
the value `Блог` (at least one occurring) and every `"Объяснение:"`-labelled
line carries `Сайт содержит статьи` (at least one occurring),
`classify_content` returns exactly that record.  The original claim holds for
the two-line example but fails when a later conflicting labelled line
overwrites these values. -/
theorem classify_content_exact_for_unambiguous_labels (resp : List Char)
    (htEx : ∃ l ∈ splitOnChar '\n' (pyStrip resp), isTypeLine l = true)
    (htAll : ∀ l ∈ splitOnChar '\n' (pyStrip resp), isTypeLine l = true →
      labelValue l = "Блог".data)
    (heEx : ∃ l ∈ splitOnChar '\n' (pyStrip resp), isExplLine l = true)
    (heAll : ∀ l ∈ splitOnChar '\n' (pyStrip resp), isExplLine l = true →
      labelValue l = "Сайт содержит статьи".data) :
    classify_content_parse resp =
      ⟨"Блог".data, "Сайт содержит статьи".data⟩ := by
  have h1 : (classifyScan (splitOnChar '\n' (pyStrip resp)) [] []).1 =
      "Блог".data :=
    classifyScan_fst_const _ _ _ _ (Or.inr htEx) htAll
  have h2 : (classifyScan (splitOnChar '\n' (pyStrip resp)) [] []).2 =
      "Сайт содержит статьи".data := by
    refine classifyScan_snd_const _ _ _ _ ?_ ?_
    · rcases heEx with ⟨l, hl, hE⟩
      exact Or.inr ⟨l, hl, isExplLine_not_isTypeLine hE, hE⟩
    · exact fun l hl _ hE => heAll l hl hE
  have hBne : "Блог".data ≠ ([] : List Char) := by decide
  have hSne : "Сайт содержит статьи".data ≠ ([] : List Char) := by decide
  dsimp only [classify_content_parse]
  rw [h1, h2]
  simp [hBne, hSne]

/-- C3 (amended) witness: the claim's own two-line example. -/
theorem classify_content_exact_for_unambiguous_labels_witness :
    classify_content_parse
        "Тип: Блог\nОбъяснение: Сайт содержит статьи".data =
      ⟨"Блог".data, "Сайт содержит статьи".data⟩ :=
  classify_content_exact_for_unambiguous_labels
    "Тип: Блог\nОбъяснение: Сайт содержит статьи".data
    (by decide) (by decide) (by decide) (by decide)

/-- C4: the claim as frozen is false at a requested count of 0: the empty
truncation is replaced by the one-element placeholder list, which exceeds the
requested cap. -/
theorem ux_report_count_zero_exceeds_cap :
    ¬((generate_ux_report_parse
        "Рекомендации:\n1. Упростите навигацию по сайту".data 0).recommendations.length ≤ 0) := by
  decide

/-- C4 (amended): for every requested count of at least 1, the
recommendations list of `generate_ux_report` has length at most the count,
and strengths and weaknesses are each capped at 5 items. -/
theorem ux_report_caps (resp : List Char) (count : Nat) (hc : 1 ≤ count) :
    (generate_ux_report_parse resp count).recommendations.length ≤ count ∧
    (generate_ux_report_parse resp count).strengths.length ≤ 5 ∧
    (generate_ux_report_parse resp count).weaknesses.length ≤ 5 := by
  dsimp only [generate_ux_report_parse]
  refine ⟨?_, ?_, ?_⟩
  · split
    · simpa using hc
    · simp [List.length_take]
  · split
    · simp
    · simp [List.length_take]
  · split
    · simp
    · simp [List.length_take]

/-- C4 (amended) witness. -/
theorem ux_report_caps_witness :
    1 ≤ 2 ∧
    ((generate_ux_report_parse
        "Рекомендации:\n1. Упростите навигацию по сайту\n2. Добавьте поиск\n3. Уберите баннер".data
        2).recommendations.length ≤ 2 ∧
     (generate_ux_report_parse
        "Рекомендации:\n1. Упростите навигацию по сайту\n2. Добавьте поиск\n3. Уберите баннер".data
        2).strengths.length ≤ 5 ∧
     (generate_ux_report_parse
        "Рекомендации:\n1. Упростите навигацию по сайту\n2. Добавьте поиск\n3. Уберите баннер".data
        2).weaknesses.length ≤ 5) :=
  ⟨by decide,
   ux_report_caps
     "Рекомендации:\n1. Упростите навигацию по сайту\n2. Добавьте поиск\n3. Уберите баннер".data
     2 (by decide)⟩

/-- C10: each of the three lists returned by `generate_ux_report` is
non-empty — a placeholder is substituted for any list left empty by parsing —
and for a requested count of 0 the recommendations list is exactly the
one-element placeholder list, exceeding the requested cap of 0. -/
theorem ux_report_lists_never_empty (resp : List Char) (count : Nat) :
    (generate_ux_report_parse resp count).strengths ≠ [] ∧
    (generate_ux_report_parse resp count).weaknesses ≠ [] ∧
    (generate_ux_report_parse resp count).recommendations ≠ [] ∧
    (generate_ux_report_parse resp 0).recommendations = [uxRecPlaceholder] := by
  dsimp only [generate_ux_report_parse]
  refine ⟨?_, ?_, ?_, ?_⟩
  · split
    · simp
    · next h => simp [List.take_eq_nil_iff, h]
  · split
    · simp
    · next h => simp [List.take_eq_nil_iff, h]
  · split
    · simp
    · next h => exact h
  · simp

/-- C6: `OpenAIClient.__init__` fails with the configuration error exactly
when the `OPENAI_API_KEY` environment variable is absent or empty, before
anything else happens (the embedded constructor is pure: it performs no
network call, only storing the key and the resolved model name); with a
non-empty key, construction succeeds. -/
theorem openai_client_requires_api_key
    (envApiKey envModel model : Option (List Char)) :
    ((envApiKey = none ∨ envApiKey = some []) →
      OpenAIClient.init envApiKey envModel model =
        Except.error OpenAIClient.apiKeyErrorMsg) ∧
    (∀ k, envApiKey = some k → k ≠ [] →
      OpenAIClient.init envApiKey envModel model =
        Except.ok ⟨k, OpenAIClient.resolveModel model envModel⟩) := by
  constructor
  · rintro (rfl | rfl)
    · rfl
    · rfl
  · rintro k rfl hk
    simp [OpenAIClient.init, hk]

/-- C6 witness: absent key fails, non-empty key succeeds. -/
theorem openai_client_requires_api_key_witness :
    OpenAIClient.init none none none =
      Except.error OpenAIClient.apiKeyErrorMsg ∧
    OpenAIClient.init (some "sk-test".data) none none =
      Except.ok ⟨"sk-test".data, OpenAIClient.resolveModel none none⟩ :=
  ⟨(openai_client_requires_api_key none none none).1 (Or.inl rfl),
   (openai_client_requires_api_key (some "sk-test".data) none none).2
     "sk-test".data rfl (by decide)⟩

/-- C7: the claim as frozen is false: under `stop_after_attempt(3)` three
consecutive transport failures exhaust the retry budget, so a run whose first
three attempts fail raises even though a later attempt would succeed. -/
theorem fetch_html_three_failures_raise :
    PageParser.fetch_html
      (fun i => if i ≤ 3 then Except.error "connection error".data
                else Except.ok "<html>ok</html>".data) =
      Except.error "connection error".data := by
  rfl

/-- C7 (amended): two consecutive simulated transport failures followed by a
success on the third attempt yield the successful result without raising. -/
theorem fetch_html_two_failures_then_success
    (attempts : Nat → Except (List Char) (List Char))
    (e₁ e₂ page : List Char)
    (h1 : attempts 1 = Except.error e₁)
    (h2 : attempts 2 = Except.error e₂)
    (h3 : attempts 3 = Except.ok page) :
    PageParser.fetch_html attempts = Except.ok page := by
  unfold PageParser.fetch_html
  simp only [retryAttempts, h1, h2, h3]

/-- C7 (amended) witness. -/
theorem fetch_html_two_failures_then_success_witness :
    PageParser.fetch_html
      (fun i => if 3 ≤ i then Except.ok "<html>ok</html>".data
                else Except.error "timeout".data) =
      Except.ok "<html>ok</html>".data :=
  fetch_html_two_failures_then_success _ "timeout".data "timeout".data
    "<html>ok</html>".data rfl rfl rfl

/-- C5: when the extracted text of the fetched page is shorter than 50
characters after trimming, every agent run operation fails with the
validation error; the completion endpoint is universally quantified and the
error result does not depend on it, so no LLM-client operation is invoked. -/
theorem agents_reject_short_extracted_text (complete : Completion)
    (html : List Node) (nq nr : Nat)
    (h : (pyStrip (PageParser.extract_text html)).length < 50) :
    QuestionGeneratorAgent.run complete html nq =
      Except.error insufficientTextMsg ∧
    ContentClassifierAgent.run complete html =
      Except.error insufficientTextMsg ∧
    UXReviewerAgent.run complete html nr =
      Except.error insufficientTextMsg ∧
    SiteAgent.run_all complete html nq =
      Except.error insufficientTextMsg := by
  have hg : gateText html = Except.error insufficientTextMsg := by
    simp only [gateText]
    rw [if_pos (Or.inr h)]
  refine ⟨?_, ?_, ?_, ?_⟩ <;>
    simp [QuestionGeneratorAgent.run, ContentClassifierAgent.run,
      UXReviewerAgent.run, SiteAgent.run_all, hg, Except.map]

/-- C5 witness: a concrete document whose extracted text is short. -/
theorem agents_reject_short_extracted_text_witness :
    (pyStrip (PageParser.extract_text sampleShortDoc)).length < 50 ∧
    (QuestionGeneratorAgent.run (constantCompletion []) sampleShortDoc 5 =
        Except.error insufficientTextMsg ∧
     ContentClassifierAgent.run (constantCompletion []) sampleShortDoc =
        Except.error insufficientTextMsg ∧
     UXReviewerAgent.run (constantCompletion []) sampleShortDoc 5 =
        Except.error insufficientTextMsg ∧
     SiteAgent.run_all (constantCompletion []) sampleShortDoc 5 =
        Except.error insufficientTextMsg) :=
  ⟨by decide,
   agents_reject_short_extracted_text (constantCompletion []) sampleShortDoc
     5 5 (by decide)⟩

/-- C8: `SiteAgent.run_all` does not forward any recommendation count to the
UX sub-call: whenever it succeeds, its `ux_report` field equals
`generate_ux_report` applied to the extracted text with the default count of
5, whatever question count the caller supplied. -/
theorem run_all_uses_default_ux_count (complete : Completion)
    (html : List Node) (nq : Nat) (r : RunAllResult)
    (h : SiteAgent.run_all complete html nq = Except.ok r) :
    r.ux_report =
      OpenAIClient.generate_ux_report complete (PageParser.extract_text html) 5 := by
  dsimp only [SiteAgent.run_all, gateText] at h
  split at h
  · exact absurd h (by simp [Except.map])
  · simp only [Except.map] at h
    cases h
    rfl

set_option maxRecDepth 100000 in
/-- C8 witness: a concrete successful run. -/
theorem run_all_uses_default_ux_count_witness :
    ∃ r, SiteAgent.run_all
        (constantCompletion "Тип: Блог\nОбъяснение: Сайт содержит статьи".data)
        sampleLongDoc 3 = Except.ok r ∧
      r.ux_report =
        OpenAIClient.generate_ux_report
          (constantCompletion "Тип: Блог\nОбъяснение: Сайт содержит статьи".data)
          (PageParser.extract_text sampleLongDoc) 5 :=
  ⟨_, rfl,
   run_all_uses_default_ux_count
     (constantCompletion "Тип: Блог\nОбъяснение: Сайт содержит статьи".data)
     sampleLongDoc 3 _ rfl⟩

/-- Every list decomposes around its strip as `u ++ pyStrip l ++ v`. -/
theorem pyStrip_exists_append (l : List Char) :
    ∃ u v, l = u ++ pyStrip l ++ v := by
  have key : ∀ d : List Char,
      d = (d.reverse.dropWhile isPySpace).reverse ++
        (d.reverse.takeWhile isPySpace).reverse := by
    intro d
    rw [← List.reverse_append, List.takeWhile_append_dropWhile,
      List.reverse_reverse]
  refine ⟨l.takeWhile isPySpace,
    ((l.dropWhile isPySpace).reverse.takeWhile isPySpace).reverse, ?_⟩
  conv_lhs => rw [← List.takeWhile_append_dropWhile isPySpace l,
    key (l.dropWhile isPySpace)]
  rw [pyStrip, List.append_assoc]

/-- The head of a `dropWhile` result never satisfies the predicate. -/
theorem head?_dropWhile_false {p : Char → Bool} {l : List Char} {c : Char}
    (h : (l.dropWhile p).head? = some c) : p c = false := by
  induction l with
  | nil => simp at h
  | cons a t ih =>
      rw [List.dropWhile_cons] at h
      split at h
      · exact ih h
      · next hpa =>
          simp only [List.head?_cons, Option.some.injEq] at h
          subst h
          simpa using hpa

/-- Characters of the strip are characters of the original list. -/
theorem mem_pyStrip {l : List Char} {c : Char} (h : c ∈ pyStrip l) : c ∈ l := by
  obtain ⟨u, v, huv⟩ := pyStrip_exists_append l
  rw [huv]
  exact List.mem_append.mpr (Or.inl (List.mem_append.mpr (Or.inr h)))

/-- The first character of a stripped list is not whitespace. -/
theorem head?_pyStrip {l : List Char} {c : Char}
    (h : (pyStrip l).head? = some c) : isPySpace c = false := by
  unfold pyStrip at h
  rw [List.head?_reverse] at h
  have hlast : (l.dropWhile isPySpace).reverse.getLast? = some c := by
    conv_lhs =>
      rw [← List.takeWhile_append_dropWhile isPySpace
        (l.dropWhile isPySpace).reverse]
    rw [List.getLast?_append, h]
    rfl
  rw [List.getLast?_reverse] at hlast
  exact head?_dropWhile_false hlast

/-- The last character of a stripped list is not whitespace. -/
theorem getLast?_pyStrip {l : List Char} {c : Char}
    (h : (pyStrip l).getLast? = some c) : isPySpace c = false := by
  unfold pyStrip at h
  rw [List.getLast?_reverse] at h
  exact head?_dropWhile_false h

/-- A list whose ends are not whitespace is left unchanged by stripping. -/
theorem pyStrip_eq_self_of {l : List Char}
    (hh : ∀ c, l.head? = some c → isPySpace c = false)
    (hl : ∀ c, l.getLast? = some c → isPySpace c = false) :
    pyStrip l = l := by
  have dw : ∀ m : List Char,
      (∀ c, m.head? = some c → isPySpace c = false) →
      m.dropWhile isPySpace = m := by
    intro m hm
    cases m with
    | nil => rfl
    | cons a t => rw [List.dropWhile_cons, if_neg (by simp [hm a rfl])]
  unfold pyStrip
  rw [dw l hh, dw l.reverse fun c hc => hl c (by rwa [List.head?_reverse] at hc),
    List.reverse_reverse]

/-- Stripping is idempotent. -/
theorem pyStrip_idem (l : List Char) : pyStrip (pyStrip l) = pyStrip l :=
  pyStrip_eq_self_of (fun _ hc => head?_pyStrip hc)
    (fun _ hc => getLast?_pyStrip hc)

/-- Membership in `consHead` decomposed. -/
theorem mem_consHead {c : Char} {S : List (List Char)} {p : List Char}
    (h : p ∈ consHead c S) :
    (S = [] ∧ p = [c]) ∨ ∃ h' t, S = h' :: t ∧ (p = c :: h' ∨ p ∈ t) := by
  cases S with
  | nil =>
      simp only [consHead, List.mem_singleton] at h
      exact Or.inl ⟨rfl, h⟩
  | cons h' t =>
      simp only [consHead, List.mem_cons] at h
      exact Or.inr ⟨h', t, rfl, h⟩

/-- No part produced by `pySplitlines` contains a line boundary. -/
theorem pySplitlines_no_break (l : List Char) :
    ∀ p ∈ pySplitlines l, ∀ c ∈ p, isLineBreak c = false := by
  induction l using pySplitlines.induct with
  | case1 =>
      intro p hp
      simp [pySplitlines] at hp
  | case2 ch hch =>
      intro p hp c hc
      simp [pySplitlines, hch] at hp
      subst hp
      simp at hc
  | case3 ch hch =>
      intro p hp c hc
      simp [pySplitlines, hch] at hp
      subst hp
      rw [List.mem_singleton] at hc
      subst hc
      simpa using hch
  | case4 ch d rest hcond ih =>
      intro p hp c hc
      simp only [pySplitlines, if_pos hcond, List.mem_cons] at hp
      rcases hp with rfl | hp
      · simp at hc
      · exact ih p hp c hc
  | case5 ch d rest hcond hch ih =>
      intro p hp c hc
      simp only [pySplitlines, if_neg hcond, if_pos hch, List.mem_cons] at hp
      rcases hp with rfl | hp
      · simp at hc
      · exact ih p hp c hc
  | case6 ch d rest hcond hch ih =>
      intro p hp c hc
      simp only [pySplitlines, if_neg hcond, if_neg hch] at hp
      rcases mem_consHead hp with ⟨hS, rfl⟩ | ⟨h', t', hS, hp'⟩
      · rw [List.mem_singleton] at hc
        subst hc
        simpa using hch
      · rcases hp' with rfl | hp'
        · rcases List.mem_cons.mp hc with rfl | hc'
          · simpa using hch
          · exact ih h' (by rw [hS]; exact List.mem_cons_self _ _) c hc'
        · exact ih p (by rw [hS]; exact List.mem_cons_of_mem _ hp') c hc

/-- A non-empty break-free list splits into the single line itself. -/
theorem pySplitlines_of_noBreak (l : List Char) :
    l ≠ [] → noBreakChar l → pySplitlines l = [l] := by
  induction l using pySplitlines.induct with
  | case1 => intro h _; exact absurd rfl h
  | case2 ch hch =>
      intro _ hb
      exact absurd (hb ch (List.mem_singleton_self _)) (by simp [hch])
  | case3 ch hch =>
      intro _ _
      simp [pySplitlines, hch]
  | case4 ch d rest hcond ih =>
      intro _ hb
      have hcond' : ch = '\r' ∧ d = '\n' := by simpa using hcond
      have hcr : ch = '\r' := hcond'.1
      have hfalse := hb ch (List.mem_cons_self _ _)
      rw [hcr] at hfalse
      exact absurd hfalse (by decide)
  | case5 ch d rest hcond hch ih =>
      intro _ hb
      exact absurd (hb ch (List.mem_cons_self _ _)) (by simp [hch])
  | case6 ch d rest hcond hch ih =>
      intro _ hb
      have hrest : pySplitlines (d :: rest) = [d :: rest] :=
        ih (by simp) (fun c hc => hb c (List.mem_cons_of_mem _ hc))
      simp only [pySplitlines, if_neg hcond, if_neg hch, hrest, consHead]

/-- `splitTwoSpaces` never returns the empty list of parts. -/
theorem splitTwoSpaces_ne_nil (l : List Char) : splitTwoSpaces l ≠ [] := by
  cases l with
  | nil => simp [splitTwoSpaces]
  | cons c rest =>
      cases rest with
      | nil => simp [splitTwoSpaces]
      | cons d rest' =>
          simp only [splitTwoSpaces]
          split
          · simp
          · cases splitTwoSpaces (d :: rest') <;> simp [consHead]

/-- The first part of `splitTwoSpaces (d :: rest)` is empty or starts
with `d`. -/
theorem splitTwoSpaces_cons_head (d : Char) (rest : List Char) :
    ∃ h t, splitTwoSpaces (d :: rest) = h :: t ∧
      (h = [] ∨ h.head? = some d) := by
  cases rest with
  | nil => exact ⟨[d], [], rfl, Or.inr rfl⟩
  | cons e rest' =>
      simp only [splitTwoSpaces]
      split
      · exact ⟨[], _, rfl, Or.inl rfl⟩
      · obtain ⟨h', t', hS⟩ : ∃ h' t', splitTwoSpaces (e :: rest') = h' :: t' := by
          cases hS : splitTwoSpaces (e :: rest') with
          | nil => exact absurd hS (splitTwoSpaces_ne_nil _)
          | cons a b => exact ⟨a, b, rfl⟩
        rw [hS]
        exact ⟨d :: h', t', rfl, Or.inr rfl⟩

/-- Every part produced by `splitTwoSpaces` is free of double spaces. -/
theorem noTwoSpaces_of_mem_splitTwoSpaces (l : List Char) :
    ∀ p ∈ splitTwoSpaces l, noTwoSpaces p = true := by
  induction l using splitTwoSpaces.induct with
  | case1 =>
      intro p hp
      simp only [splitTwoSpaces, List.mem_singleton] at hp
      subst hp
      rfl
  | case2 ch =>
      intro p hp
      simp only [splitTwoSpaces, List.mem_singleton] at hp
      subst hp
      rfl
  | case3 ch d rest hcond ih =>
      intro p hp
      simp only [splitTwoSpaces, if_pos hcond, List.mem_cons] at hp
      rcases hp with rfl | hp
      · rfl
      · exact ih p hp
  | case4 ch d rest hcond ih =>
      intro p hp
      simp only [splitTwoSpaces, if_neg hcond] at hp
      rcases mem_consHead hp with ⟨hS, rfl⟩ | ⟨h', t', hS, hp'⟩
      · exact absurd hS (splitTwoSpaces_ne_nil _)
      · rcases hp' with rfl | hp'
        · have hh' : noTwoSpaces h' = true :=
            ih h' (by rw [hS]; exact List.mem_cons_self _ _)
          have hhead : h' = [] ∨ h'.head? = some d := by
            obtain ⟨h₀, t₀, hS₀, hh⟩ := splitTwoSpaces_cons_head d rest
            rw [hS] at hS₀
            injection hS₀ with he1 he2
            rw [← he1] at hh
            exact hh
          cases h' with
          | nil => rfl
          | cons x h'' =>
              have hx : x = d := by
                rcases hhead with h | h
                · exact absurd h (by simp)
                · simpa using h
              rw [hx] at hh' ⊢
              simp only [noTwoSpaces, Bool.and_eq_true]
              refine ⟨?_, hh'⟩
              have hfalse : (decide (ch = ' ') && decide (d = ' ')) = false :=
                Bool.eq_false_iff.mpr hcond
              rw [hfalse]
              rfl
        · exact ih p (by rw [hS]; exact List.mem_cons_of_mem _ hp')

/-- Characters of `splitTwoSpaces` parts come from the original list. -/
theorem mem_of_mem_splitTwoSpaces (l : List Char) :
    ∀ p ∈ splitTwoSpaces l, ∀ c ∈ p, c ∈ l := by
  induction l using splitTwoSpaces.induct with
  | case1 =>
      intro p hp c hc
      simp only [splitTwoSpaces, List.mem_singleton] at hp
      subst hp
      simp at hc
  | case2 ch =>
      intro p hp c hc
      simp only [splitTwoSpaces, List.mem_singleton] at hp
      subst hp
      rw [List.mem_singleton] at hc
      subst hc
      exact List.mem_singleton_self _
  | case3 ch d rest hcond ih =>
      intro p hp c hc
      simp only [splitTwoSpaces, if_pos hcond, List.mem_cons] at hp
      rcases hp with rfl | hp
      · simp at hc
      · exact List.mem_cons_of_mem _ (List.mem_cons_of_mem _ (ih p hp c hc))
  | case4 ch d rest hcond ih =>
      intro p hp c hc
      simp only [splitTwoSpaces, if_neg hcond] at hp
      rcases mem_consHead hp with ⟨hS, rfl⟩ | ⟨h', t', hS, hp'⟩
      · exact absurd hS (splitTwoSpaces_ne_nil _)
      · rcases hp' with rfl | hp'
        · rcases List.mem_cons.mp hc with rfl | hc'
          · exact List.mem_cons_self _ _
          · exact List.mem_cons_of_mem _
              (ih h' (by rw [hS]; exact List.mem_cons_self _ _) c hc')
        · exact List.mem_cons_of_mem _
            (ih p (by rw [hS]; exact List.mem_cons_of_mem _ hp') c hc)

/-- A double-space-free list splits into the single part itself. -/
theorem splitTwoSpaces_of_noTwoSpaces (l : List Char) :
    noTwoSpaces l = true → splitTwoSpaces l = [l] := by
  induction l using splitTwoSpaces.induct with
  | case1 => intro _; rfl
  | case2 ch => intro _; rfl
  | case3 ch d rest hcond ih =>
      intro h
      exfalso
      simp only [noTwoSpaces, Bool.and_eq_true] at h
      rw [hcond] at h
      simpa using h.1
  | case4 ch d rest hcond ih =>
      intro h
      simp only [noTwoSpaces, Bool.and_eq_true] at h
      simp only [splitTwoSpaces, if_neg hcond, ih h.2, consHead]

/-- `noTwoSpaces` is inherited by the tail. -/
theorem noTwoSpaces_tail {a : Char} {l : List Char}
    (h : noTwoSpaces (a :: l) = true) : noTwoSpaces l = true := by
  cases l with
  | nil => rfl
  | cons b rest =>
      simp only [noTwoSpaces, Bool.and_eq_true] at h
      exact h.2

/-- `noTwoSpaces` of an append is inherited on the right. -/
theorem noTwoSpaces_append_right {a b : List Char}
    (h : noTwoSpaces (a ++ b) = true) : noTwoSpaces b = true := by
  induction a with
  | nil => exact h
  | cons x a' ih =>
      rw [List.cons_append] at h
      exact ih (noTwoSpaces_tail h)

/-- `noTwoSpaces` of an append is inherited on the left. -/
theorem noTwoSpaces_append_left {a b : List Char}
    (h : noTwoSpaces (a ++ b) = true) : noTwoSpaces a = true := by
  induction a with
  | nil => rfl
  | cons x a' ih =>
      cases a' with
      | nil => rfl
      | cons y a'' =>
          rw [List.cons_append, List.cons_append] at h
          simp only [noTwoSpaces, Bool.and_eq_true] at h ⊢
          refine ⟨h.1, ?_⟩
          exact ih (by rw [List.cons_append]; exact h.2)

/-- Stripping preserves `noTwoSpaces`. -/
theorem noTwoSpaces_pyStrip {l : List Char} (h : noTwoSpaces l = true) :
    noTwoSpaces (pyStrip l) = true := by
  obtain ⟨u, v, huv⟩ := pyStrip_exists_append l
  rw [huv] at h
  exact noTwoSpaces_append_right (noTwoSpaces_append_left h)

/-- Appending two double-space-free lists whose boundary is not a double
space is double-space-free. -/
theorem noTwoSpaces_append_of (b : List Char) (hb : noTwoSpaces b = true) :
    ∀ a : List Char, noTwoSpaces a = true →
      ¬(a.getLast? = some ' ' ∧ b.head? = some ' ') →
      noTwoSpaces (a ++ b) = true := by
  intro a
  induction a with
  | nil =>
      intro _ _
      simpa using hb
  | cons x a' ih =>
      intro ha hj
      cases a' with
      | nil =>
          cases b with
          | nil => simpa using ha
          | cons y b' =>
              rw [List.singleton_append]
              simp only [noTwoSpaces, Bool.and_eq_true]
              refine ⟨?_, hb⟩
              have hxy : ¬(x = ' ' ∧ y = ' ') := by
                intro hxy
                exact hj ⟨by simp [hxy.1], by simp [hxy.2]⟩
              by_cases hx : x = ' '
              · have hy : ¬y = ' ' := fun hy => hxy ⟨hx, hy⟩
                simp [hy]
              · simp [hx]
      | cons z a'' =>
          rw [List.cons_append, List.cons_append]
          simp only [noTwoSpaces, Bool.and_eq_true] at ha
          simp only [noTwoSpaces, Bool.and_eq_true]
          refine ⟨ha.1, ?_⟩
          have hrec := ih ha.2 (by
            intro hcontra
            refine hj ⟨?_, hcontra.2⟩
            rw [List.getLast?_cons_cons]
            exact hcontra.1)
          rw [List.cons_append] at hrec
          exact hrec

/-- `joinSp` of a non-empty first chunk is non-empty. -/
theorem joinSp_cons_ne_nil {x : List Char} {xs : List (List Char)}
    (hx : x ≠ []) : joinSp (x :: xs) ≠ [] := by
  cases xs with
  | nil => simpa [joinSp] using hx
  | cons y ys =>
      simp only [joinSp]
      simp [List.append_eq_nil]

/-- `joinSp` of chunks that are non-empty, stripped, break-free and
double-space-free is normalized. -/
theorem joinSp_normalized :
    ∀ xs : List (List Char),
      (∀ x ∈ xs, x ≠ [] ∧ pyStrip x = x ∧ noBreakChar x ∧ noTwoSpaces x = true) →
      normalizedText (joinSp xs) := by
  intro xs
  induction xs with
  | nil =>
      intro _
      exact ⟨rfl, fun c hc => absurd hc (List.not_mem_nil c), rfl⟩
  | cons x xs ih =>
      intro hall
      obtain ⟨hxne, hxstrip, hxbreak, hxtwo⟩ := hall x (List.mem_cons_self _ _)
      cases xs with
      | nil => exact ⟨hxstrip, hxbreak, hxtwo⟩
      | cons y ys =>
          obtain ⟨hJstrip, hJbreak, hJtwo⟩ :=
            ih (fun z hz => hall z (List.mem_cons_of_mem _ hz))
          have hyne : y ≠ [] := (hall y (by simp)).1
          have hJne : joinSp (y :: ys) ≠ [] := joinSp_cons_ne_nil hyne
          show normalizedText (x ++ ' ' :: joinSp (y :: ys))
          have hJheadNotSpace : ∀ j, (joinSp (y :: ys)).head? = some j →
              isPySpace j = false := by
            intro j hj
            rw [← hJstrip] at hj
            exact head?_pyStrip hj
          have hJlastNotSpace : ∀ j, (joinSp (y :: ys)).getLast? = some j →
              isPySpace j = false := by
            intro j hj
            rw [← hJstrip] at hj
            exact getLast?_pyStrip hj
          refine ⟨?_, ?_, ?_⟩
          · apply pyStrip_eq_self_of
            · intro c hc
              rw [List.head?_append] at hc
              cases x with
              | nil => exact absurd rfl hxne
              | cons a as =>
                  have hc' : some a = some c := hc
                  have hhead : (pyStrip (a :: as)).head? = some c := by
                    rw [hxstrip]
                    exact hc'
                  exact head?_pyStrip hhead
            · intro c hc
              rw [List.getLast?_append] at hc
              have hJl : (' ' :: joinSp (y :: ys)).getLast? =
                  (joinSp (y :: ys)).getLast? := by
                cases hJv : joinSp (y :: ys) with
                | nil => exact absurd hJv hJne
                | cons j js => rw [List.getLast?_cons_cons]
              rw [hJl] at hc
              obtain ⟨jl, hjl⟩ : ∃ jl, (joinSp (y :: ys)).getLast? = some jl := by
                cases hJv : joinSp (y :: ys) with
                | nil => exact absurd hJv hJne
                | cons j js => exact ⟨(j :: js).getLast (by simp), List.getLast?_eq_getLast _ _⟩
              rw [hjl] at hc
              have hc' : some jl = some c := hc
              have hjc : jl = c := Option.some.inj hc'
              exact hJlastNotSpace c (by rw [← hjc]; exact hjl)
          · intro c hc
            rcases List.mem_append.mp hc with hcx | hcj
            · exact hxbreak c hcx
            · rcases List.mem_cons.mp hcj with rfl | hcj'
              · decide
              · exact hJbreak c hcj'
          · apply noTwoSpaces_append_of (' ' :: joinSp (y :: ys)) ?_ x hxtwo ?_
            · cases hJv : joinSp (y :: ys) with
              | nil => exact absurd hJv hJne
              | cons j js =>
                  simp only [noTwoSpaces, Bool.and_eq_true]
                  have hjhead : isPySpace j = false := by
                    apply hJheadNotSpace
                    rw [hJv]
                    rfl
                  have hjne : ¬j = ' ' := by
                    intro he
                    rw [he] at hjhead
                    exact absurd hjhead (by decide)
                  refine ⟨by simp [hjne], ?_⟩
                  rw [← hJv]
                  exact hJtwo
            · intro hcontra
              have hlast := hcontra.1
              have : isPySpace ' ' = false := by
                rw [← hxstrip] at hlast
                exact getLast?_pyStrip hlast
              exact absurd this (by decide)

/-- The output of the whitespace normalization of `extract_text` is always
normalized: trimmed, break-free and double-space-free. -/
theorem postprocess_normalized (t : List Char) :
    normalizedText (postprocess t) := by
  dsimp only [postprocess]
  apply joinSp_normalized
  intro x hx
  rw [List.mem_filter] at hx
  obtain ⟨hmem, hne⟩ := hx
  have hxne : x ≠ [] := by simpa using hne
  rw [List.mem_flatten] at hmem
  obtain ⟨s, hs, hxs⟩ := hmem
  rw [List.mem_map] at hs
  obtain ⟨line, hline, rfl⟩ := hs
  rw [List.mem_map] at hxs
  obtain ⟨ph, hph, rfl⟩ := hxs
  rw [List.mem_map] at hline
  obtain ⟨rawline, hraw, rfl⟩ := hline
  refine ⟨hxne, pyStrip_idem ph, ?_, ?_⟩
  · intro c hc
    have h1 : c ∈ ph := mem_pyStrip hc
    have h2 : c ∈ pyStrip rawline := mem_of_mem_splitTwoSpaces _ ph hph c h1
    exact pySplitlines_no_break t rawline hraw c (mem_pyStrip h2)
  · exact noTwoSpaces_pyStrip (noTwoSpaces_of_mem_splitTwoSpaces _ ph hph)

/-- A normalized text is a fixed point of the whitespace normalization. -/
theorem postprocess_eq_self {s : List Char} (hs : normalizedText s) :
    postprocess s = s := by
  obtain ⟨hstrip, hbreak, htwo⟩ := hs
  by_cases hnil : s = []
  · subst hnil
    rfl
  · dsimp only [postprocess]
    rw [pySplitlines_of_noBreak s hnil hbreak]
    simp only [List.map_cons, List.map_nil, hstrip]
    rw [splitTwoSpaces_of_noTwoSpaces s htwo]
    simp only [List.map_cons, List.map_nil, hstrip]
    simp [hnil, joinSp]

/-- C9: text extraction is idempotent — re-extracting the extractor's own
output, re-read trivially as HTML (a single text node), returns the same
normalized text. -/
theorem extract_text_idempotent (doc : List Node) :
    PageParser.extract_text [Node.text (PageParser.extract_text doc)] =
      PageParser.extract_text doc := by
  have hn : normalizedText (PageParser.extract_text doc) :=
    postprocess_normalized (getText doc)
  obtain ⟨hstrip, hbreak, htwo⟩ := hn
  by_cases hnil : PageParser.extract_text doc = []
  · rw [hnil]
    rfl
  · have hget : getText [Node.text (PageParser.extract_text doc)] =
        PageParser.extract_text doc := by
      dsimp only [getText, strippedStringsList, strippedStrings]
      rw [hstrip, if_neg hnil]
      simp [joinSp]
    show postprocess (getText [Node.text (PageParser.extract_text doc)]) =
      PageParser.extract_text doc
    rw [hget]
    exact postprocess_eq_self ⟨hstrip, hbreak, htwo⟩

end SiteWorker
